import Mathlib

/-!
Verification of the mtgimg image-resolution pipeline against its
natural-language specification.

The development shallow-embeds the parts of the source that the claims
touch:

* `src/mtgimg/interface.py` — `SizeSlug`, `IMAGE_SIZE_MAP`, `ImageRequest`
  (construction, `has_image`, `_identifier`, `_name_no_extension`, `name`,
  `dir_path`, `path`, `__hash__`, `__eq__`);
* `src/mtgimg/pipeline.py` — `get_pipeline` and the disk-cache gates of
  `Fetcher.get_image`, `ImageableProcessor.get_image` and
  `ImageTransformer.get_image`;
* `src/mtgimg/crop.py` — the crop dispatch and the per-layout crop
  recipes, modelled at the level of image dimensions;
* `src/mtgimg/load.py` — `TaskAwaiter` / `EventWithValue` and the
  fetcher protocol, modelled as an interleaved transition system.

Machine integers are `Nat`/`Int`; Python floats in the size table are
justified by exact rational error bounds (see the lemmas next to
`IMAGE_SIZE_MAP`).
-/

/-- `SizeSlug` enum from `interface.py`: the four size tiers. -/
inductive SizeSlug where
  | original
  | medium
  | small
  | thumbnail
deriving DecidableEq, Repr

/-- `SizeSlug.code`: the short code of each tier (`''`, `'m'`, `'s'`, `'t'`). -/
def SizeSlug.code : SizeSlug → String
  | .original => ""
  | .medium => "m"
  | .small => "s"
  | .thumbnail => "t"

/-- `SizeSlug.scale`: the scale factor of each tier (`1`, `.5`, `.3`, `.15`),
as an exact rational. -/
def SizeSlug.scale : SizeSlug → ℚ
  | .original => 1
  | .medium => 1 / 2
  | .small => 3 / 10
  | .thumbnail => 3 / 20

/-- The two `ORIGINAL` rows of `IMAGE_SIZE_MAP`:
`(745, 1040)` uncropped, `(560, 435)` cropped. -/
def ORIGINAL_SIZE (cropped : Bool) : ℕ × ℕ :=
  if cropped then (560, 435) else (745, 1040)

/-- `IMAGE_SIZE_MAP` from `interface.py`, as the concrete table the dict
comprehension produces.  Each non-`ORIGINAL` entry is
`int(dimension * size_slug.scale)` evaluated in IEEE-754 double arithmetic,
where `int` truncates toward zero.  For every entry of this table the double
product equals exactly the rational `dimension * scale` (the nearest doubles
to `0.3` and `0.15` are `5404319552844595/2^54` and `5404319552844595/2^55`,
and the error bounds proved in `double_product_exact_scale_small` /
`double_product_exact_scale_thumbnail` below put each product within half an
ulp of the exact rational value), so the table below is
`⌊dimension * scale⌋` componentwise. -/
def IMAGE_SIZE_MAP : SizeSlug → Bool → ℕ × ℕ
  | .original, false => (745, 1040)
  | .original, true => (560, 435)
  | .medium, false => (372, 520)
  | .medium, true => (280, 217)
  | .small, false => (223, 312)
  | .small, true => (168, 130)
  | .thumbnail, false => (111, 156)
  | .thumbnail, true => (84, 65)

/-- The nearest IEEE-754 double to `0.3` is `5404319552844595 / 2^54`; for
each dimension `d` used by the table, the exact real `d * 0.3` (a rational
with denominator at most `2`) is within half an ulp of the double product
`d * (5404319552844595 / 2^54)`, so the double product rounds back to that
rational exactly.  Half-ulp sizes: `2^-46` for values in `[128, 256)` and
`2^-45` for values in `[256, 512)`. -/
theorem double_product_exact_scale_small :
    |(745 : ℚ) * (5404319552844595 / 2 ^ 54) - 447 / 2| < 1 / 2 ^ 46 ∧
    |(1040 : ℚ) * (5404319552844595 / 2 ^ 54) - 312| < 1 / 2 ^ 45 ∧
    |(560 : ℚ) * (5404319552844595 / 2 ^ 54) - 168| < 1 / 2 ^ 46 ∧
    |(435 : ℚ) * (5404319552844595 / 2 ^ 54) - 261 / 2| < 1 / 2 ^ 46 := by
  norm_num [abs_sub_lt_iff, abs_lt]

/-- The nearest IEEE-754 double to `0.15` is `5404319552844595 / 2^55`; as in
`double_product_exact_scale_small`, each double product rounds back to the
exact rational `d * 0.15`.  Half-ulp sizes: `2^-47` for values in `[64, 128)`
and `2^-46` for values in `[128, 256)`. -/
theorem double_product_exact_scale_thumbnail :
    |(745 : ℚ) * (5404319552844595 / 2 ^ 55) - 447 / 4| < 1 / 2 ^ 47 ∧
    |(1040 : ℚ) * (5404319552844595 / 2 ^ 55) - 156| < 1 / 2 ^ 46 ∧
    |(560 : ℚ) * (5404319552844595 / 2 ^ 55) - 84| < 1 / 2 ^ 47 ∧
    |(435 : ℚ) * (5404319552844595 / 2 ^ 55) - 261 / 4| < 1 / 2 ^ 47 := by
  norm_num [abs_sub_lt_iff, abs_lt]

/-- `SizeSlug.get_size` from `interface.py`: look up the dimension table. -/
def SizeSlug.get_size (s : SizeSlug) (cropped : Bool) : ℕ × ℕ :=
  IMAGE_SIZE_MAP s cropped

/-- Card layouts from the `mtgorp` `Layout` enum, as far as
`crop.py` / `fetch.py` inspect them.  `otherLayout` stands for any further
member of the enum (the dispatch in `crop.py` falls through to the
standard crop for those). -/
inductive Layout where
  | standard
  | split
  | flip
  | aftermath
  | saga
  | classLayout
  | transform
  | modal
  | meld
  | otherLayout
deriving DecidableEq, Repr

/-- The data of a `mtgorp` `Printing` that the embedded code consults:
its multiverse id, its cardboard's layout, how many front/back cards the
cardboard has (the source only ever takes their truthiness or compares a
length with 2), and which of the type-line tags `BATTLE` / `ROOM` / `SAGA`
occur on the front card's type line. -/
structure Printing where
  id : ℕ
  layout : Layout
  frontCards : ℕ
  backCards : ℕ
  battleTag : Bool
  roomTag : Bool
  sagaTag : Bool
deriving DecidableEq, Repr

/-- The class-level data of an `Imageable` subclass: the directory name
returned by the classmethod `get_image_dir_name`. -/
structure ImageableClass where
  dirName : String
deriving DecidableEq, Repr

/-- An `Imageable` instance: its class plus the values of
`get_image_name()` and `has_back()`. -/
structure Imageable where
  cls : ImageableClass
  imageName : String
  hasBack : Bool
deriving DecidableEq, Repr

/-- The `pictureable` union from `interface.py`: `Imageable | Printing`. -/
inductive Pictureable where
  | imageable (i : Imageable)
  | printing (p : Printing)
deriving DecidableEq, Repr

/-- A Python type tag for `pictured_type`: the class `Printing` or a
concrete `Imageable` subclass. -/
inductive PicturedType where
  | printingType
  | imageableType (cls : ImageableClass)
deriving DecidableEq, Repr

/-- Python's `type(pictured)`. -/
def Pictureable.typeOf : Pictureable → PicturedType
  | .imageable i => .imageableType i.cls
  | .printing _ => .printingType

/-- `issubclass(t, Imageable)`. -/
def PicturedType.isImageableSubclass : PicturedType → Bool
  | .printingType => false
  | .imageableType _ => true

/-- The stored state of an `interface.py` `ImageRequest`: exactly the nine
attributes assigned in `__init__`. -/
structure ImageRequest where
  pictured : Option Pictureable
  pictured_type : PicturedType
  pictured_name : Option String
  back : Bool
  crop : Bool
  size_slug : SizeSlug
  save : Bool
  cache_only : Bool
  allow_disk_cached : Bool
deriving DecidableEq, Repr

/-- `ImageRequest.__init__` (interface.py lines 107-128).  The stored
`_pictured_type` is the `pictured_type` argument only when `pictured` is
`None`; otherwise it is `type(pictured)`.  (The source also coerces a
non-`str` `picture_name` through `str`; the model types the argument as
`Option String` up front.) -/
def mkImageRequest (pictured : Option Pictureable) (pictured_type : PicturedType)
    (picture_name : Option String) (back : Bool) (crop : Bool) (size_slug : SizeSlug)
    (save : Bool) (cache_only : Bool) (allow_disk_cached : Bool) : ImageRequest :=
  { pictured := pictured
    pictured_type :=
      match pictured with
      | none => pictured_type
      | some p => p.typeOf
    pictured_name := picture_name
    back := back
    crop := crop
    size_slug := size_slug
    save := save
    cache_only := cache_only
    allow_disk_cached := allow_disk_cached }

/-- `ImageRequest.has_image`.  With `pictured = None` and
`pictured_name = None` the Python property raises an `AttributeError`
(`None.cardboard`); the model returns `false` on that dead branch. -/
def ImageRequest.has_image (r : ImageRequest) : Bool :=
  match r.pictured_name with
  | some _ => true
  | none =>
    if r.back then
      match r.pictured with
      | some (.imageable i) => i.hasBack
      | some (.printing p) => p.backCards ≠ 0
      | none => false
    else
      match r.pictured with
      | some (.imageable _) => true
      | some (.printing p) => p.frontCards ≠ 0
      | none => false

/-- `ImageRequest._identifier`: the caller override if given, else the
imageable's declared name, else `str(printing.id)`.  (`pictured = None`
with no override raises in Python; the model returns `""` on that dead
branch.) -/
def ImageRequest.identifier (r : ImageRequest) : String :=
  match r.pictured_name with
  | some s => s
  | none =>
    match r.pictured with
    | some (.imageable i) => i.imageName
    | some (.printing p) => toString p.id
    | none => ""

/-- `ImageRequest._name_no_extension`: note that the `'_b'` suffix is
attached inside the `has_image` conditional, so a request with no image
yields the bare root `'cardback'` even when `back` is requested. -/
def ImageRequest.name_no_extension (r : ImageRequest) : String :=
  (if r.has_image then r.identifier ++ (if r.back then "_b" else "") else "cardback")
    ++ (if r.crop then "_crop" else "")
    ++ (if r.size_slug.code ≠ "" then "_" ++ r.size_slug.code else "")

/-- `ImageRequest.extension`: always `png`. -/
def ImageRequest.extension (_ : ImageRequest) : String :=
  "png"

/-- `ImageRequest.name = _name_no_extension + '.' + extension`. -/
def ImageRequest.name (r : ImageRequest) : String :=
  r.name_no_extension ++ "." ++ r.extension

/-- `paths.IMAGES_PATH` (environment dependent; the claims only use that it
is a fixed string). -/
def IMAGES_PATH : String :=
  "<app_data>/images"

/-- `paths.CARD_BACK_DIRECTORY_PATH`. -/
def CARD_BACK_DIRECTORY_PATH : String :=
  "<package>/cardback"

/-- `os.path.join` for the two-component joins the source performs. -/
def joinPath (a b : String) : String :=
  a ++ "/" ++ b

/-- `ImageRequest._get_imageable_dir_path`: images root, then
`'_' + get_image_dir_name()`. -/
def imageableDirPath (cls : ImageableClass) : String :=
  joinPath IMAGES_PATH ("_" ++ cls.dirName)

/-- `ImageRequest.dir_path`. -/
def ImageRequest.dir_path (r : ImageRequest) : String :=
  match r.pictured_name with
  | some _ =>
    match r.pictured_type with
    | .imageableType cls => imageableDirPath cls
    | .printingType => IMAGES_PATH
  | none =>
    if r.has_image then
      match r.pictured with
      | some (.imageable i) => imageableDirPath i.cls
      | _ => IMAGES_PATH
    else CARD_BACK_DIRECTORY_PATH

/-- `ImageRequest.path = os.path.join(dir_path, name)`. -/
def ImageRequest.path (r : ImageRequest) : String :=
  joinPath r.dir_path r.name

/-- The tuple `ImageRequest.__hash__` feeds into Python's `hash`: all nine
stored fields, in source order. -/
def ImageRequest.fieldTuple (r : ImageRequest) :
    Option Pictureable × PicturedType × Option String × Bool × Bool × SizeSlug ×
      Bool × Bool × Bool :=
  (r.pictured, r.pictured_type, r.pictured_name, r.back, r.crop, r.size_slug,
    r.save, r.cache_only, r.allow_disk_cached)

/-- `ImageRequest.__hash__`, modelled as the field tuple itself: this keeps
exactly the hash's dependence on the nine fields while idealizing Python's
integer tuple hash as collision-free. -/
def ImageRequest.pyHash (r : ImageRequest) :
    Option Pictureable × PicturedType × Option String × Bool × Bool × SizeSlug ×
      Bool × Bool × Bool :=
  r.fieldTuple

/-- `ImageRequest.__eq__`: an `isinstance` check (always satisfied between
two requests) followed by comparison of all nine fields. -/
def ImageRequest.pyEq (a b : ImageRequest) : Bool :=
  a.pictured == b.pictured
    && a.pictured_type == b.pictured_type
    && a.pictured_name == b.pictured_name
    && a.back == b.back
    && a.crop == b.crop
    && a.size_slug == b.size_slug
    && a.save == b.save
    && a.cache_only == b.cache_only
    && a.allow_disk_cached == b.allow_disk_cached

/-- The shape of the pipeline `get_pipeline` (pipeline.py lines 217-232)
assembles: the two root sources and the three wrappers. -/
inductive Pipeline where
  | imageableProcessor
  | fetcher
  | cropper (inner : Pipeline)
  | reSizer (inner : Pipeline)
  | cacheOnly (inner : Pipeline)
deriving DecidableEq, Repr

/-- `isinstance(image_request.pictured, Imageable)` (false when `pictured`
is `None`). -/
def ImageRequest.picturedIsImageable (r : ImageRequest) : Bool :=
  match r.pictured with
  | some (.imageable _) => true
  | _ => false

/-- `get_pipeline` from `pipeline.py`: an imageable subject returns the bare
`ImageableProcessor` immediately; only otherwise is `Fetcher` wrapped by
`Cropper` / `ReSizer` / `CacheOnly` according to the flags. -/
def get_pipeline (r : ImageRequest) : Pipeline :=
  if r.picturedIsImageable then .imageableProcessor
  else
    let p1 : Pipeline := .fetcher
    let p2 : Pipeline := if r.crop then .cropper p1 else p1
    let p3 : Pipeline := if r.size_slug ≠ .original then .reSizer p2 else p2
    if r.cache_only then .cacheOnly p3 else p3

/-- The pipeline shape claim C5 describes, built from the spec's words:
root by subject kind, then unconditionally wrapped by `Cropper`, `ReSizer`
and `CacheOnly` according to the flags. -/
def specPipelineC5 (r : ImageRequest) : Pipeline :=
  let root : Pipeline := if r.picturedIsImageable then .imageableProcessor else .fetcher
  let p2 : Pipeline := if r.crop then .cropper root else root
  let p3 : Pipeline := if r.size_slug ≠ .original then .reSizer p2 else p2
  if r.cache_only then .cacheOnly p3 else p3

/-- How a pipeline stage's disk-first gate exits before any coalescing or
production work. -/
inductive Gate where
  | diskReturn
  | earlyReturn
  | raiseNoLocal
  | raiseMissingDefault
  | proceed
deriving DecidableEq, Repr

/-- Python truthiness of `image_request.pictured_name`
(`None` and `''` are falsy). -/
def ImageRequest.truthyName (r : ImageRequest) : Bool :=
  match r.pictured_name with
  | none => false
  | some s => !s.isEmpty

/-- The disk-first gate of `Fetcher.get_image` (pipeline.py lines 113-122):
with `allow_disk_cached`, a successful disk load (`diskLoadOk`) returns it;
on failure a truthy `pictured_name` raises `'No local image with that
name'`, a falsy `has_image` raises `'Missing default image'`, and otherwise
control proceeds to the coalesced fetch.  Without `allow_disk_cached`
control proceeds directly. -/
def fetcherGate (r : ImageRequest) (diskLoadOk : Bool) : Gate :=
  if r.allow_disk_cached then
    if diskLoadOk then .diskReturn
    else if r.truthyName then .raiseNoLocal
    else if !r.has_image then .raiseMissingDefault
    else .proceed
  else .proceed

/-- The disk-first gate of `ImageableProcessor.get_image` (pipeline.py lines
65-76): with `allow_disk_cached`, a `cache_only` request returns as soon as
the file exists (`fileExists`), and otherwise a successful disk load
returns it; without `allow_disk_cached`, a `cache_only` request returns
`None` immediately (producing nothing), and otherwise control proceeds. -/
def imageableProcessorGate (r : ImageRequest) (fileExists diskLoadOk : Bool) : Gate :=
  if r.allow_disk_cached then
    if r.cache_only then
      if fileExists then .earlyReturn else .proceed
    else
      if diskLoadOk then .diskReturn else .proceed
  else
    if r.cache_only then .earlyReturn else .proceed

/-- The disk-first gate of `ImageTransformer.get_image` (pipeline.py lines
146-151, shared by `Cropper` and `ReSizer`): with `allow_disk_cached` a
successful disk load returns, any failure falls through; otherwise control
proceeds directly. -/
def transformerGate (r : ImageRequest) (diskLoadOk : Bool) : Gate :=
  if r.allow_disk_cached then
    if diskLoadOk then .diskReturn else .proceed
  else .proceed

/-- An image modelled by its pixel dimensions `(width, height)` — the level
at which claim C8 speaks.  PIL primitives on this level:
`Image.crop((l, u, r, b))` yields size `(r - l, b - u)` irrespective of the
input (PIL pads out-of-bounds boxes), `rotate(±90, expand=1)` swaps the
dimensions, `resize(s)` yields `s`, `Image.new(mode, s)` yields `s`, and
`paste` leaves the canvas size unchanged. -/
def Size : Type :=
  ℕ × ℕ

/-- `Image.crop` box semantics on sizes: `(left, upper, right, lower)` gives
`(right - left, lower - upper)`. -/
def pilCrop (left upper right lower : ℕ) (_ : Size) : Size :=
  (right - left, lower - upper)

/-- `rotate(±90, expand=1)` on sizes: swap width and height. -/
def pilRotate90Expand (s : Size) : Size :=
  (s.2, s.1)

/-- `resize(target, Image.LANCZOS)` on sizes. -/
def pilResize (target : Size) (_ : Size) : Size :=
  target

/-- `CROPPED_SIZE` from `crop.py`. -/
def CROPPED_SIZE : Size :=
  (560, 435)

/-- `_split_horizontal`: a fresh `(width, height)` canvas with the pieces
pasted in; its size is the canvas size. -/
def split_horizontal (width height : ℕ) (_ : List Size) : Size :=
  (width, height)

/-- `_crop_standard`. -/
def crop_standard (img : Size) : Size :=
  pilCrop 92 120 652 555 img

/-- `_crop_split`: two sub-crops are rotated, resized to `(650, 435)` and
pasted side by side into a `CROPPED_SIZE` canvas. -/
def crop_split (img : Size) : Size :=
  split_horizontal CROPPED_SIZE.1 CROPPED_SIZE.2
    [pilResize (650, 435) (pilRotate90Expand (pilCrop 96 82 345 454 img)),
      pilResize (650, 435) (pilRotate90Expand (pilCrop 96 582 345 954 img))]

/-- `_crop_flip`. -/
def crop_flip (img : Size) : Size :=
  pilResize CROPPED_SIZE (pilCrop 141 325 604 685 img)

/-- `_crop_aftermath`: the bottom half is pasted onto the top crop (leaving
the top's size), then resized to `(1149, 435)` and cropped. -/
def crop_aftermath (img : Size) : Size :=
  pilCrop 294 0 854 435 (pilResize (1149, 435) (pilCrop 92 120 652 332 img))

/-- `_crop_saga`. -/
def crop_saga (img : Size) : Size :=
  pilCrop 246 0 806 435 (pilResize (1052, 435) (pilRotate90Expand (pilCrop 373 115 686 872 img)))

/-- `_crop_room`. -/
def crop_room (img : Size) : Size :=
  pilCrop 246 0 806 435 (pilResize (1052, 435) (pilRotate90Expand (pilCrop 105 60 390 936 img)))

/-- `_crop_class`. -/
def crop_class (img : Size) : Size :=
  pilCrop 246 0 806 435 (pilResize (1052, 435) (pilRotate90Expand (pilCrop 58 115 371 872 img)))

/-- `_crop_battle`. -/
def crop_battle (img : Size) : Size :=
  pilCrop 246 0 806 435 (pilResize (1052, 435) (pilRotate90Expand (pilCrop 103 115 416 872 img)))

/-- The `crop` dispatch from `crop.py` (lines 89-118): standard crop when no
request is supplied or the subject is not a `Printing`, then the
layout/type-line chain in source order, with the standard crop as the
default branch. -/
def crop (img : Size) (image_request : Option ImageRequest) : Size :=
  match image_request with
  | none => crop_standard img
  | some r =>
    match r.pictured with
    | some (.printing p) =>
      if p.layout = .standard then crop_standard img
      else if p.battleTag && !r.back then crop_battle img
      else if p.layout = .saga || p.sagaTag then crop_saga img
      else if p.layout = .split && p.frontCards = 2 then
        (if p.roomTag then crop_room img else crop_split img)
      else if p.layout = .flip then crop_flip img
      else if p.layout = .aftermath && p.frontCards = 2 then crop_aftermath img
      else if p.layout = .classLayout then crop_class img
      else crop_standard img
    | _ => crop_standard img

/-- A `load.py` `EventWithValue` slot for one key: `value` is the `value`
attribute (set by `set_value`, `None` until then) and `isSet` is the
underlying `threading.Event` flag (raised by the final `super().set()`). -/
structure Slot where
  value : Option ℕ
  isSet : Bool
deriving DecidableEq, Repr

/-- The atomic actions of the slot owner inside `Fetcher._fetch_image` plus
`EventWithValue.set_value`, in source order: perform the upstream fetch,
save the image to disk (when `request.save`), then `set_value`'s three
statements — store the outcome in `self.value`, `del_key` the request from
the `TaskAwaiter` map, and finally `set()` the event. -/
inductive OwnerPhase where
  | fetching
  | saving
  | storing
  | removing
  | signalling
deriving DecidableEq, Repr

/-- The control state of one worker running `Fetcher.get_image` on the
shared key: `isStart` is before the disk check, `toAcquire` is between the
failed disk load and `get_condition`, `owner sid ph` owns slot `sid` (about
to perform `ph`), `waiter sid` is blocked in `event.wait()` on slot `sid`,
`finished r` returned the image `r`, and `failedNoLocal` / `failedMissing`
raised the two `ImageFetchException`s of the disk-miss branch. -/
inductive TPhase where
  | isStart
  | toAcquire
  | owner (sid : ℕ) (ph : OwnerPhase)
  | waiter (sid : ℕ)
  | finished (r : Option ℕ)
  | failedNoLocal
  | failedMissing
deriving DecidableEq, Repr

/-- `TPhase.finished`, as a Boolean. -/
def TPhase.isFinished : TPhase → Bool
  | .finished _ => true
  | _ => false

/-- The per-request parameters of a run of identical `Fetcher.get_image`
calls: the image the upstream fetch produces (`v`, an abstract PNG), and
the request's `save` flag, `pictured_name` truthiness and `has_image`
value. -/
structure FetchParams where
  v : ℕ
  save : Bool
  picturedName : Bool
  hasImage : Bool
deriving DecidableEq, Repr

/-- A global configuration of `n` workers all running `Fetcher.get_image`
(with `allow_disk_cached` true) on one identical request: the list of slot
objects created so far for the key, the `TaskAwaiter._map` entry for the
key (`current`, pointing into `slots`), the on-disk cache entry for the
request's path, the number of upstream fetches executed so far, and each
worker's control state. -/
structure Cfg (n : ℕ) where
  slots : List Slot
  current : Option ℕ
  disk : Option ℕ
  fetchCount : ℕ
  threads : Fin n → TPhase
deriving Repr

/-- One atomic action by worker `i`, following `Fetcher.get_image`
(pipeline.py lines 113-129), `TaskAwaiter.get_condition` / `del_key`
(load.py lines 51-67) and `EventWithValue.set_value` (load.py lines
42-45).  Workers whose next action is not enabled (a waiter whose event is
not set, or a finished worker) leave the configuration unchanged. -/
def fetchStep {n : ℕ} (p : FetchParams) (c : Cfg n) (i : Fin n) : Cfg n :=
  match c.threads i with
  | .isStart =>
    match c.disk with
    | some w => { c with threads := Function.update c.threads i (.finished (some w)) }
    | none =>
      if p.picturedName then
        { c with threads := Function.update c.threads i .failedNoLocal }
      else if !p.hasImage then
        { c with threads := Function.update c.threads i .failedMissing }
      else
        { c with threads := Function.update c.threads i .toAcquire }
  | .toAcquire =>
    match c.current with
    | some sid => { c with threads := Function.update c.threads i (.waiter sid) }
    | none =>
      { c with
        slots := c.slots ++ [⟨none, false⟩]
        current := some c.slots.length
        threads := Function.update c.threads i (.owner c.slots.length .fetching) }
  | .owner sid .fetching =>
    { c with
      fetchCount := c.fetchCount + 1
      threads := Function.update c.threads i (.owner sid .saving) }
  | .owner sid .saving =>
    { c with
      disk := if p.save then some p.v else c.disk
      threads := Function.update c.threads i (.owner sid .storing) }
  | .owner sid .storing =>
    { c with
      slots := c.slots.set sid ⟨some p.v, (c.slots.getD sid ⟨none, false⟩).isSet⟩
      threads := Function.update c.threads i (.owner sid .removing) }
  | .owner sid .removing =>
    { c with
      current := none
      threads := Function.update c.threads i (.owner sid .signalling) }
  | .owner sid .signalling =>
    { c with
      slots := c.slots.set sid ⟨(c.slots.getD sid ⟨none, false⟩).value, true⟩
      threads := Function.update c.threads i (.finished (some p.v)) }
  | .waiter sid =>
    if (c.slots.getD sid ⟨none, false⟩).isSet then
      { c with threads := Function.update c.threads i (.finished (c.slots.getD sid ⟨none, false⟩).value) }
    else c
  | .finished _ => c
  | .failedNoLocal => c
  | .failedMissing => c

/-- Run a schedule: the interleaving is the list of worker indices, each
entry performing that worker's next atomic action. -/
def fetchRun {n : ℕ} (p : FetchParams) (c : Cfg n) (sched : List (Fin n)) : Cfg n :=
  List.foldl (fetchStep p) c sched

/-- The initial configuration of the cold-cache scenario: no slot for the
key, no map entry, an empty disk cache, no fetch executed, all workers
about to run the disk check. -/
def fetchInit (n : ℕ) : Cfg n :=
  { slots := []
    current := none
    disk := none
    fetchCount := 0
    threads := fun _ => .isStart }

/-- C3 counterexample: the dimension table stores `int`-truncated entries,
not rounded ones.  At tier `THUMBNAIL`, uncropped, the table holds
`(111, 156)` (`int(745 * 0.15) = 111`, the double product being exactly
`111.75`), while componentwise rounding of `ORIGINAL × scale` gives
`(112, 156)` — under any tie-breaking convention, since `111.75` is not a
tie. -/
theorem C3_round_counterexample :
    IMAGE_SIZE_MAP .thumbnail false = (111, 156) ∧
    (round (((ORIGINAL_SIZE false).1 : ℚ) * SizeSlug.scale .thumbnail),
        round (((ORIGINAL_SIZE false).2 : ℚ) * SizeSlug.scale .thumbnail)) =
      ((112 : ℤ), (156 : ℤ)) ∧
    ((IMAGE_SIZE_MAP .thumbnail false).1 : ℤ) ≠
      round (((ORIGINAL_SIZE false).1 : ℚ) * SizeSlug.scale .thumbnail) := by
  refine ⟨rfl, ?_, ?_⟩ <;> norm_num [ORIGINAL_SIZE, SizeSlug.scale, round_eq, IMAGE_SIZE_MAP]

/-- C3 amended: for every tier and crop value the table entry equals the
componentwise floor (truncation, as Python's `int` on a non-negative float)
of `ORIGINAL-dimension × scale`. -/
theorem C3_size_table_floor (s : SizeSlug) (c : Bool) :
    IMAGE_SIZE_MAP s c =
      ((⌊((ORIGINAL_SIZE c).1 : ℚ) * s.scale⌋).toNat,
        (⌊((ORIGINAL_SIZE c).2 : ℚ) * s.scale⌋).toNat) := by
  cases s <;> cases c <;>
    norm_num [IMAGE_SIZE_MAP, ORIGINAL_SIZE, SizeSlug.scale, Int.floor_eq_iff] <;>
    decide

/-- The file-name formula exactly as claim C4 states it: identifier, then
`_b` if the back face is requested, then `_crop` if crop is requested, then
`_` and the size code if non-empty, then `.png`; the identifier falls back
to the literal `cardback` when no image is expected. -/
def specIdentifierC4 (r : ImageRequest) : String :=
  if r.has_image then r.identifier else "cardback"

/-- The full claimed name formula of C4. -/
def specNameC4 (r : ImageRequest) : String :=
  specIdentifierC4 r ++ (if r.back then "_b" else "") ++ (if r.crop then "_crop" else "")
    ++ (if r.size_slug.code ≠ "" then "_" ++ r.size_slug.code else "") ++ ".png"

/-- C4's amended name formula: the `_b` marker is attached only when an
image is expected; a no-image request keeps the bare root `cardback` even
when the back face was requested. -/
def specNameC4Amended (r : ImageRequest) : String :=
  (if r.has_image then r.identifier ++ (if r.back then "_b" else "") else "cardback")
    ++ (if r.crop then "_crop" else "")
    ++ (if r.size_slug.code ≠ "" then "_" ++ r.size_slug.code else "") ++ ".png"

/-- A request for the back face of a printing that has no back cards:
`has_image` is false, so the derived name root is `cardback`. -/
def backlessBackRequest : ImageRequest :=
  mkImageRequest (some (.printing ⟨123, .standard, 1, 0, false, false, false⟩))
    .printingType none true false .original true false true

/-- C4 counterexample: for the back face of a printing with no back cards
the code derives `cardback.png`, while the claimed formula inserts `_b`
after the `cardback` identifier and yields `cardback_b.png`. -/
theorem C4_name_counterexample :
    backlessBackRequest.name = "cardback.png" ∧
    specNameC4 backlessBackRequest = "cardback_b.png" ∧
    backlessBackRequest.name ≠ specNameC4 backlessBackRequest := by
  refine ⟨rfl, rfl, ?_⟩
  decide

/-- C4 amended: for every request, the derived file name matches the
claimed formula with the `_b` marker moved inside the image-expected case
(so the `cardback` root never carries `_b`). -/
theorem C4_name_formula (r : ImageRequest) :
    r.name = specNameC4Amended r := by
  unfold ImageRequest.name ImageRequest.name_no_extension ImageRequest.extension
    specNameC4Amended
  rw [String.append_assoc, String.append_assoc, String.append_assoc,
    String.append_assoc, String.append_assoc]
  have hdot : ("." : String) ++ "png" = ".png" := rfl
  rw [hdot]

/-- A cropped, resized, cache-only request whose subject is an imageable:
the builder returns the bare `ImageableProcessor` for it. -/
def imageableCropRequest : ImageRequest :=
  mkImageRequest (some (.imageable ⟨⟨"tokens"⟩, "tok", false⟩))
    .printingType none false true .small true true true

/-- C5 counterexample: for an imageable subject with `crop = true`,
`size_slug = SMALL` and `cache_only = true`, `get_pipeline` returns the
bare `ImageableProcessor`, not the claimed
`CacheOnly(ReSizer(Cropper(ImageableProcessor)))` chain. -/
theorem C5_pipeline_counterexample :
    get_pipeline imageableCropRequest = .imageableProcessor ∧
    specPipelineC5 imageableCropRequest =
      .cacheOnly (.reSizer (.cropper .imageableProcessor)) ∧
    get_pipeline imageableCropRequest ≠ specPipelineC5 imageableCropRequest := by
  exact ⟨rfl, rfl, by decide⟩

/-- C5 amended: the claimed wrapping applies only when the subject is not
an imageable; an imageable subject short-circuits to the bare
`ImageableProcessor` (which handles crop, size and cache-only itself). -/
theorem C5_pipeline_shape (r : ImageRequest) :
    (r.picturedIsImageable = true → get_pipeline r = .imageableProcessor) ∧
    (r.picturedIsImageable = false → get_pipeline r = specPipelineC5 r) := by
  constructor
  · intro h
    simp [get_pipeline, h]
  · intro h
    simp [get_pipeline, specPipelineC5, h]

/-- C5 witness: the amended theorem applied to a concrete imageable request
and a concrete printing request. -/
theorem C5_pipeline_shape_witness :
    get_pipeline imageableCropRequest = .imageableProcessor ∧
    get_pipeline backlessBackRequest = specPipelineC5 backlessBackRequest := by
  exact ⟨(C5_pipeline_shape imageableCropRequest).1 rfl,
    (C5_pipeline_shape backlessBackRequest).2 rfl⟩

/-- C8: every branch of the crop dispatch — every layout, the saga/battle
type-line branches, the default branch for unknown layouts, absent
requests and non-printing subjects — produces an image of size exactly
`CROPPED_SIZE = (560, 435)`, for every input image size. -/
theorem C8_crop_size (img : Size) (req : Option ImageRequest) :
    crop img req = (560, 435) := by
  cases req with
  | none => rfl
  | some r =>
    rcases hp : r.pictured with _ | (i | p) <;> simp only [crop, hp] <;>
      try rfl
    split_ifs <;> rfl

/-- Two requests agree on the stored field tuple exactly when they are the
same record. -/
theorem fieldTuple_eq_iff (a b : ImageRequest) :
    a.fieldTuple = b.fieldTuple ↔ a = b := by
  cases a
  cases b
  simp [ImageRequest.fieldTuple, ImageRequest.mk.injEq]

/-- `ImageRequest.__eq__` returns true exactly when all nine stored fields
agree. -/
theorem pyEq_true_iff (a b : ImageRequest) :
    a.pyEq b = true ↔ a = b := by
  cases a
  cases b
  simp [ImageRequest.pyEq, ImageRequest.mk.injEq, and_assoc]

/-- C9: key purity.  Requests with identical field tuples have identical
`path`, `name` and hash and compare equal under `__eq__`; requests whose
field tuples differ anywhere compare unequal, and at least one of `path`,
`name` or the hash differs (with `__hash__` modelled collision-freely as
the field tuple itself, the hash always differs). -/
theorem C9_key_purity (a b : ImageRequest) :
    (a.fieldTuple = b.fieldTuple →
      a.path = b.path ∧ a.name = b.name ∧ a.pyHash = b.pyHash ∧ a.pyEq b = true) ∧
    (a.fieldTuple ≠ b.fieldTuple →
      a.pyEq b = false ∧ (a.path ≠ b.path ∨ a.name ≠ b.name ∨ a.pyHash ≠ b.pyHash)) := by
  constructor
  · intro h
    obtain rfl : a = b := (fieldTuple_eq_iff a b).mp h
    exact ⟨rfl, rfl, rfl, (pyEq_true_iff a a).mpr rfl⟩
  · intro h
    refine ⟨?_, Or.inr (Or.inr ?_)⟩
    · refine Bool.eq_false_iff.mpr fun hq => h ?_
      exact (fieldTuple_eq_iff a b).mpr ((pyEq_true_iff a b).mp hq)
    · exact h

/-- C9 witness: the theorem applied to an identical pair and to a pair
differing only in the `save` flag. -/
theorem C9_key_purity_witness :
    (backlessBackRequest.path = backlessBackRequest.path ∧
      backlessBackRequest.name = backlessBackRequest.name ∧
      backlessBackRequest.pyHash = backlessBackRequest.pyHash ∧
      backlessBackRequest.pyEq backlessBackRequest = true) ∧
    (backlessBackRequest.pyEq { backlessBackRequest with save := false } = false ∧
      (backlessBackRequest.path ≠ ImageRequest.path { backlessBackRequest with save := false } ∨
        backlessBackRequest.name ≠ ImageRequest.name { backlessBackRequest with save := false } ∨
        backlessBackRequest.pyHash ≠ ImageRequest.pyHash { backlessBackRequest with save := false })) := by
  exact ⟨(C9_key_purity backlessBackRequest backlessBackRequest).1 rfl,
    (C9_key_purity backlessBackRequest { backlessBackRequest with save := false }).2
      (fun h => absurd ((fieldTuple_eq_iff _ _).mp h) (by decide))⟩

/-- C10: when `pictured` is non-`None` the stored `pictured_type` is
`type(pictured)` and the caller-supplied `pictured_type` argument is
ignored — two constructions differing only in that argument yield the same
record, compare equal under `__eq__` and hash alike; the argument is
honored exactly when `pictured` is `None`. -/
theorem C10_pictured_type_ignored (p : Pictureable) (t1 t2 : PicturedType)
    (pn : Option String) (bk cr : Bool) (sz : SizeSlug) (sv co adc : Bool) :
    (mkImageRequest (some p) t1 pn bk cr sz sv co adc).pictured_type = p.typeOf ∧
    mkImageRequest (some p) t1 pn bk cr sz sv co adc =
      mkImageRequest (some p) t2 pn bk cr sz sv co adc ∧
    (mkImageRequest (some p) t1 pn bk cr sz sv co adc).pyEq
      (mkImageRequest (some p) t2 pn bk cr sz sv co adc) = true ∧
    (mkImageRequest (some p) t1 pn bk cr sz sv co adc).pyHash =
      (mkImageRequest (some p) t2 pn bk cr sz sv co adc).pyHash ∧
    (mkImageRequest none t1 pn bk cr sz sv co adc).pictured_type = t1 := by
  refine ⟨rfl, rfl, ?_, rfl, rfl⟩
  exact (pyEq_true_iff _ _).mpr rfl

/-- An imageable-subject request with `allow_disk_cached = false` and
`cache_only = true`: the combination on which `ImageableProcessor` returns
early. -/
def skipCacheWarmRequest : ImageRequest :=
  mkImageRequest (some (.imageable ⟨⟨"tokens"⟩, "tok", false⟩))
    .printingType none false false .original true true false

/-- C6 counterexample: with `allow_disk_cached = false` and
`cache_only = true`, `ImageableProcessor.get_image` returns `None`
immediately (`elif image_request.cache_only: return None`), producing
nothing, instead of proceeding to recompute as the claim requires of every
stage. -/
theorem C6_skip_cache_counterexample :
    skipCacheWarmRequest.allow_disk_cached = false ∧
    imageableProcessorGate skipCacheWarmRequest false false = .earlyReturn ∧
    imageableProcessorGate skipCacheWarmRequest false false ≠ .proceed := by
  exact ⟨rfl, rfl, by decide⟩

/-- C6 amended: with `allow_disk_cached = false` every stage skips the
disk-cache lookup; `Fetcher` and the transformers always proceed to
produce, and `ImageableProcessor` proceeds except in the `cache_only`
case, where it returns early without producing anything. -/
theorem C6_skip_cache (r : ImageRequest) (diskLoadOk fileExists : Bool)
    (h : r.allow_disk_cached = false) :
    fetcherGate r diskLoadOk = .proceed ∧
    transformerGate r diskLoadOk = .proceed ∧
    imageableProcessorGate r fileExists diskLoadOk =
      (if r.cache_only then .earlyReturn else .proceed) := by
  simp [fetcherGate, transformerGate, imageableProcessorGate, h]

/-- C6 witness: the amended theorem applied to a `cache_only` request and
to a plain request, both with `allow_disk_cached = false` and with
`diskLoadOk = true` (the lookup would have succeeded, and is skipped). -/
theorem C6_skip_cache_witness :
    (fetcherGate skipCacheWarmRequest true = .proceed ∧
      transformerGate skipCacheWarmRequest true = .proceed ∧
      imageableProcessorGate skipCacheWarmRequest true true = .earlyReturn) ∧
    (fetcherGate { skipCacheWarmRequest with cache_only := false } true = .proceed ∧
      transformerGate { skipCacheWarmRequest with cache_only := false } true = .proceed ∧
      imageableProcessorGate { skipCacheWarmRequest with cache_only := false } true true = .proceed) := by
  constructor
  · simpa using C6_skip_cache skipCacheWarmRequest true true rfl
  · simpa using C6_skip_cache { skipCacheWarmRequest with cache_only := false } true true rfl

/-- C7: with `allow_disk_cached = true`, `Fetcher.get_image` returns the
disk image when the disk load succeeds; when it fails it raises
`'No local image with that name'` if `pictured_name` is given (truthy — a
non-`None`, non-empty string, per `if image_request.pictured_name:`),
raises `'Missing default image'` if `has_image` is false, and otherwise
proceeds to the coalesced fetch. -/
theorem C7_fetcher_disk_first (r : ImageRequest) (h : r.allow_disk_cached = true) :
    fetcherGate r true = .diskReturn ∧
    (r.truthyName = true → fetcherGate r false = .raiseNoLocal) ∧
    (r.truthyName = false → r.has_image = false → fetcherGate r false = .raiseMissingDefault) ∧
    (r.truthyName = false → r.has_image = true → fetcherGate r false = .proceed) := by
  refine ⟨?_, ?_, ?_, ?_⟩
  · simp [fetcherGate, h]
  · intro ht
    simp [fetcherGate, h, ht]
  · intro ht hi
    simp [fetcherGate, h, ht, hi]
  · intro ht hi
    simp [fetcherGate, h, ht, hi]

/-- A named request for a local image that is not on disk. -/
def namedLocalRequest : ImageRequest :=
  mkImageRequest none .printingType (some "proxy") false false .original true false true

/-- A default-image request (no subject, no name) for a printing whose
requested face does not exist. -/
def missingFaceRequest : ImageRequest :=
  mkImageRequest (some (.printing ⟨77, .standard, 1, 0, false, false, false⟩))
    .printingType none true false .original true false true

/-- C7 witness: the theorem applied to concrete requests covering all four
branches — disk hit, truthy `pictured_name`, missing face, and the
proceed case. -/
theorem C7_fetcher_disk_first_witness :
    fetcherGate namedLocalRequest true = .diskReturn ∧
    fetcherGate namedLocalRequest false = .raiseNoLocal ∧
    fetcherGate missingFaceRequest false = .raiseMissingDefault ∧
    fetcherGate { missingFaceRequest with back := false } false = .proceed := by
  refine ⟨(C7_fetcher_disk_first namedLocalRequest rfl).1,
    (C7_fetcher_disk_first namedLocalRequest rfl).2.1 (by decide),
    (C7_fetcher_disk_first missingFaceRequest rfl).2.2.1 (by decide) (by decide),
    (C7_fetcher_disk_first { missingFaceRequest with back := false } rfl).2.2.2 (by decide) (by decide)⟩

/-- Parameters of the claims' cold scenario: the fetch yields the image
`7`, the request has `save = True`, no `pictured_name`, and an existing
face (`has_image = True`). -/
def coldParams : FetchParams :=
  ⟨7, true, false, true⟩

/-- The racing schedule: both workers pass the disk check while the cache
is empty; worker 0 then runs to completion (fetch, save, store, remove
key, signal); worker 1 only then calls `get_condition`, finds no slot (it
was removed) — it missed the disk write too, since its disk check happened
first — and becomes a second owner, fetching again. -/
def raceSchedule : List (Fin 2) :=
  [0, 1, 0, 0, 0, 0, 0, 0, 1, 1, 1, 1, 1, 1]

/-- C1 counterexample: two identical requests, both issued (their disk
checks both run) while the cache is empty, yet the run executes **two**
upstream fetches — the single-flight claim's "exactly one" fails on the
window between `set_value`'s `del_key` and a late `get_condition`.  Both
workers still complete with equal results, the work being idempotent. -/
theorem C1_single_flight_counterexample :
    (fetchRun coldParams (fetchInit 2) raceSchedule).fetchCount = 2 ∧
    (fetchRun coldParams (fetchInit 2) raceSchedule).threads 0 = .finished (some 7) ∧
    (fetchRun coldParams (fetchInit 2) raceSchedule).threads 1 = .finished (some 7) := by
  decide

/-- `List.getD` after appending one element, below the old length. -/
theorem getD_append_lt {α : Type} (l : List α) (x d : α) (i : ℕ) (h : i < l.length) :
    (l ++ [x]).getD i d = l.getD i d := by
  rw [List.getD_eq_getElem?_getD, List.getD_eq_getElem?_getD, List.getElem?_append_left h]

/-- `List.getD` after appending one element, at the old length. -/
theorem getD_append_len {α : Type} (l : List α) (x d : α) :
    (l ++ [x]).getD l.length d = x := by
  rw [List.getD_eq_getElem?_getD, List.getElem?_concat_length]
  rfl

/-- `List.getD` after `List.set`, at the written index. -/
theorem getD_set_self {α : Type} (l : List α) (x d : α) (i : ℕ) (h : i < l.length) :
    (l.set i x).getD i d = x := by
  rw [List.getD_eq_getElem?_getD, List.getElem?_set_self h]
  rfl

/-- `List.getD` after `List.set`, away from the written index. -/
theorem getD_set_ne {α : Type} (l : List α) (x d : α) (i j : ℕ) (h : i ≠ j) :
    (l.set i x).getD j d = l.getD j d := by
  rw [List.getD_eq_getElem?_getD, List.getD_eq_getElem?_getD, List.getElem?_set_ne h]

/-- The slot object with id `sid` of a configuration (total lookup; slot
ids are indices into `Cfg.slots`, which only grows). -/
def slotAt {n : ℕ} (c : Cfg n) (sid : ℕ) : Slot :=
  c.slots.getD sid ⟨none, false⟩

/-- What holds of a slot while some worker owns it, by the owner's next
action: until the `storing` action runs, the slot is fresh (`value = None`,
event unset) and the map still holds it; once the outcome is stored but the
key not yet removed (`removing`), the map still holds the fulfilled-value
slot; after `del_key` (`signalling`) the slot keeps the stored outcome with
the event still unset. -/
def OwnerOk (p : FetchParams) (slot : Slot) (current : Option ℕ) (sid : ℕ) :
    OwnerPhase → Prop
  | .fetching => slot = ⟨none, false⟩ ∧ current = some sid
  | .saving => slot = ⟨none, false⟩ ∧ current = some sid
  | .storing => slot = ⟨none, false⟩ ∧ current = some sid
  | .removing => slot = ⟨some p.v, false⟩ ∧ current = some sid
  | .signalling => slot = ⟨some p.v, false⟩

/-- The global invariant of the fetcher system, preserved by every atomic
action from the cold start: the map entry points to a real, never-signalled
slot; a slot with no stored outcome is exactly the one the map holds; owned
slots satisfy the per-phase facts of `OwnerOk`; distinct workers own
distinct slots; and the slot the map holds either has no outcome yet or its
owner is between the outcome store and the key removal. -/
structure FetchInv {n : ℕ} (p : FetchParams) (c : Cfg n) : Prop where
  current_lt : ∀ sid, c.current = some sid → sid < c.slots.length
  current_unset : ∀ sid, c.current = some sid → (slotAt c sid).isSet = false
  pending_current : ∀ sid, sid < c.slots.length → (slotAt c sid).value = none →
    c.current = some sid
  owner_lt : ∀ (i : Fin n) sid ph, c.threads i = .owner sid ph → sid < c.slots.length
  owner_ok : ∀ (i : Fin n) sid ph, c.threads i = .owner sid ph →
    OwnerOk p (slotAt c sid) c.current sid ph
  owner_uniq : ∀ (i j : Fin n) sidi sidj phi phj, c.threads i = .owner sidi phi →
    c.threads j = .owner sidj phj → i ≠ j → sidi ≠ sidj
  current_resolving : ∀ sid, c.current = some sid → (slotAt c sid).value = none ∨
    ∃ i : Fin n, c.threads i = .owner sid .removing

/-- The invariant holds in the initial configuration. -/
theorem inv_init (n : ℕ) (p : FetchParams) : FetchInv p (fetchInit n) := by
  refine ⟨?_, ?_, ?_, ?_, ?_, ?_, ?_⟩ <;> intro sid <;> intros <;> simp_all [fetchInit]

/-- Updating one worker from a non-owner phase to a non-owner phase
preserves the invariant (the shared slot state is untouched). -/
theorem inv_update_nonowner {n : ℕ} {p : FetchParams} {c : Cfg n} (hInv : FetchInv p c)
    (i : Fin n) (t : TPhase)
    (hnew : ∀ sid ph, t ≠ TPhase.owner sid ph)
    (hold : ∀ sid ph, c.threads i ≠ TPhase.owner sid ph) :
    FetchInv p { c with threads := Function.update c.threads i t } := by
  refine ⟨hInv.current_lt, hInv.current_unset, hInv.pending_current, ?_, ?_, ?_, ?_⟩
  · intro j sid ph hj
    dsimp only at hj ⊢
    rcases eq_or_ne j i with rfl | hne
    · rw [Function.update_same] at hj
      exact absurd hj (hnew sid ph)
    · rw [Function.update_noteq hne] at hj
      exact hInv.owner_lt j sid ph hj
  · intro j sid ph hj
    dsimp only at hj ⊢
    rcases eq_or_ne j i with rfl | hne
    · rw [Function.update_same] at hj
      exact absurd hj (hnew sid ph)
    · rw [Function.update_noteq hne] at hj
      exact hInv.owner_ok j sid ph hj
  · intro j k sidj sidk phj phk hj hk hjk
    dsimp only at hj hk
    rcases eq_or_ne j i with rfl | hnej
    · rw [Function.update_same] at hj
      exact absurd hj (hnew sidj phj)
    · rcases eq_or_ne k i with rfl | hnek
      · rw [Function.update_same] at hk
        exact absurd hk (hnew sidk phk)
      · rw [Function.update_noteq hnej] at hj
        rw [Function.update_noteq hnek] at hk
        exact hInv.owner_uniq j k sidj sidk phj phk hj hk hjk
  · intro sid hc
    dsimp only at hc ⊢
    rcases hInv.current_resolving sid hc with hv | ⟨j, hj⟩
    · exact Or.inl hv
    · refine Or.inr ⟨j, ?_⟩
      have hne : j ≠ i := fun h => hold sid .removing (h ▸ hj)
      rw [Function.update_noteq hne]
      exact hj

/-- When the owner of slot `sid` merely advances its phase (the slot list
keeping its length), every owned slot id stays within bounds. -/
theorem owner_lt_of_advance {n : ℕ} {p : FetchParams} {c c' : Cfg n} (hInv : FetchInv p c)
    {i : Fin n} {sid : ℕ} {ph ph' : OwnerPhase}
    (ht : c.threads i = .owner sid ph)
    (hth : c'.threads = Function.update c.threads i (.owner sid ph'))
    (hlen : c'.slots.length = c.slots.length) :
    ∀ (j : Fin n) sid2 ph2, c'.threads j = .owner sid2 ph2 → sid2 < c'.slots.length := by
  intro j sid2 ph2 hj
  rw [hth] at hj
  rw [hlen]
  rcases eq_or_ne j i with rfl | hne
  · rw [Function.update_same] at hj
    injection hj with h1 h2
    subst h1
    exact hInv.owner_lt j sid ph ht
  · rw [Function.update_noteq hne] at hj
    exact hInv.owner_lt j sid2 ph2 hj

/-- When the owner of slot `sid` merely advances its phase, distinct
workers still own distinct slots. -/
theorem owner_uniq_of_advance {n : ℕ} {p : FetchParams} {c c' : Cfg n} (hInv : FetchInv p c)
    {i : Fin n} {sid : ℕ} {ph ph' : OwnerPhase}
    (ht : c.threads i = .owner sid ph)
    (hth : c'.threads = Function.update c.threads i (.owner sid ph')) :
    ∀ (j k : Fin n) sidj sidk phj phk, c'.threads j = .owner sidj phj →
      c'.threads k = .owner sidk phk → j ≠ k → sidj ≠ sidk := by
  intro j k sidj sidk phj phk hj hk hjk
  rw [hth] at hj hk
  rcases eq_or_ne j i with hji | hnej
  · rw [hji, Function.update_same] at hj
    injection hj with h1 h2
    subst h1
    rcases eq_or_ne k i with hki | hnek
    · exact absurd (hji.trans hki.symm) hjk
    · rw [Function.update_noteq hnek] at hk
      exact hInv.owner_uniq i k sid sidk ph phk ht hk (hji ▸ hjk)
  · rcases eq_or_ne k i with hki | hnek
    · rw [hki, Function.update_same] at hk
      injection hk with h1 h2
      subst h1
      rw [Function.update_noteq hnej] at hj
      exact hInv.owner_uniq j i sidj sid phj ph hj ht (hki ▸ hjk)
    · rw [Function.update_noteq hnej] at hj
      rw [Function.update_noteq hnek] at hk
      exact hInv.owner_uniq j k sidj sidk phj phk hj hk hjk

/-- When the owner of the current slot advances without touching the slot
list or the map, the resolving disjunction is preserved. -/
theorem resolving_of_advance {n : ℕ} {p : FetchParams} {c c' : Cfg n} (hInv : FetchInv p c)
    {i : Fin n} {sid : ℕ} {ph ph' : OwnerPhase}
    (ht : c.threads i = .owner sid ph)
    (hph : ph ≠ .removing)
    (hth : c'.threads = Function.update c.threads i (.owner sid ph'))
    (hslots : c'.slots = c.slots)
    (hcur : c'.current = c.current) :
    ∀ sid2, c'.current = some sid2 → (slotAt c' sid2).value = none ∨
      ∃ j : Fin n, c'.threads j = .owner sid2 .removing := by
  intro sid2 h
  rw [hcur] at h
  rcases hInv.current_resolving sid2 h with hv | ⟨j, hj⟩
  · exact Or.inl (by simpa [slotAt, hslots] using hv)
  · right
    refine ⟨j, ?_⟩
    have hne : j ≠ i := by
      intro hji
      rw [hji, ht] at hj
      injection hj with h1 h2
      exact hph h2
    rw [hth, Function.update_noteq hne]
    exact hj

/-- Every atomic action preserves the global invariant. -/
theorem inv_step {n : ℕ} {p : FetchParams} {c : Cfg n} (hInv : FetchInv p c) (i : Fin n) :
    FetchInv p (fetchStep p c i) := by
  cases ht : c.threads i with
  | isStart =>
    cases hd : c.disk with
    | some w =>
      have he : fetchStep p c i =
          { c with threads := Function.update c.threads i (.finished (some w)) } := by
        unfold fetchStep
        rw [ht, hd]
      rw [he]
      exact inv_update_nonowner hInv i _ (fun _ _ h => nomatch h)
        (fun sid ph h => by rw [ht] at h; exact nomatch h)
    | none =>
      by_cases hpn : p.picturedName = true
      · have he : fetchStep p c i =
            { c with threads := Function.update c.threads i .failedNoLocal } := by
          unfold fetchStep
          rw [ht, hd]
          simp [hpn]
        rw [he]
        exact inv_update_nonowner hInv i _ (fun _ _ h => nomatch h)
          (fun sid ph h => by rw [ht] at h; exact nomatch h)
      · by_cases hhi : p.hasImage = true
        · have he : fetchStep p c i =
              { c with threads := Function.update c.threads i .toAcquire } := by
            unfold fetchStep
            rw [ht, hd]
            simp [hpn, hhi]
          rw [he]
          exact inv_update_nonowner hInv i _ (fun _ _ h => nomatch h)
            (fun sid ph h => by rw [ht] at h; exact nomatch h)
        · have he : fetchStep p c i =
              { c with threads := Function.update c.threads i .failedMissing } := by
            unfold fetchStep
            rw [ht, hd]
            simp [hpn, hhi]
          rw [he]
          exact inv_update_nonowner hInv i _ (fun _ _ h => nomatch h)
            (fun sid ph h => by rw [ht] at h; exact nomatch h)
  | toAcquire =>
    cases hc : c.current with
    | some sid =>
      have he : fetchStep p c i =
          { c with threads := Function.update c.threads i (.waiter sid) } := by
        unfold fetchStep
        rw [ht, hc]
      rw [he]
      exact inv_update_nonowner hInv i _ (fun _ _ h => nomatch h)
        (fun sid' ph h => by rw [ht] at h; exact nomatch h)
    | none =>
      have he : fetchStep p c i =
          { c with
            slots := c.slots ++ [⟨none, false⟩]
            current := some c.slots.length
            threads := Function.update c.threads i (.owner c.slots.length .fetching) } := by
        unfold fetchStep
        rw [ht, hc]
      rw [he]
      refine ⟨?_, ?_, ?_, ?_, ?_, ?_, ?_⟩
      · intro sid2 h
        try dsimp only at h ⊢
        injection h with h1
        subst h1
        simp
      · intro sid2 h
        try dsimp only at h ⊢
        injection h with h1
        subst h1
        simp only [slotAt]
        try dsimp only
        rw [getD_append_len]
      · intro sid2 hlen2 hval
        try dsimp only at hlen2 ⊢
        simp only [slotAt] at hval
        try dsimp only at hval
        rw [List.length_append] at hlen2
        simp only [List.length_singleton] at hlen2
        rcases Nat.lt_succ_iff_lt_or_eq.mp hlen2 with hlt2 | rfl
        · rw [getD_append_lt _ _ _ _ hlt2] at hval
          have hthis := hInv.pending_current sid2 hlt2 hval
          rw [hc] at hthis
          exact nomatch hthis
        · rfl
      · intro j sid2 ph2 hj
        try dsimp only at hj ⊢
        rw [List.length_append]
        simp only [List.length_singleton]
        rcases eq_or_ne j i with hji | hne
        · rw [hji, Function.update_same] at hj
          injection hj with h1 h2
          subst h1
          omega
        · rw [Function.update_noteq hne] at hj
          have := hInv.owner_lt j sid2 ph2 hj
          omega
      · intro j sid2 ph2 hj
        try dsimp only at hj
        rcases eq_or_ne j i with hji | hne
        · rw [hji, Function.update_same] at hj
          injection hj with h1 h2
          subst h1
          subst h2
          refine ⟨?_, rfl⟩
          simp only [slotAt]
          try dsimp only
          rw [getD_append_len]
        · rw [Function.update_noteq hne] at hj
          have hok := hInv.owner_ok j sid2 ph2 hj
          have hlt2 : sid2 < c.slots.length := hInv.owner_lt j sid2 ph2 hj
          have hsa : slotAt
              { c with
                slots := c.slots ++ [⟨none, false⟩]
                current := some c.slots.length
                threads := Function.update c.threads i (.owner c.slots.length .fetching) } sid2 =
              slotAt c sid2 := by
            simp only [slotAt]
            try dsimp only
            rw [getD_append_lt _ _ _ _ hlt2]
          rw [hsa]
          cases ph2 with
          | fetching =>
            obtain ⟨hs2, hc2⟩ := hok
            rw [hc] at hc2
            exact nomatch hc2
          | saving =>
            obtain ⟨hs2, hc2⟩ := hok
            rw [hc] at hc2
            exact nomatch hc2
          | storing =>
            obtain ⟨hs2, hc2⟩ := hok
            rw [hc] at hc2
            exact nomatch hc2
          | removing =>
            obtain ⟨hs2, hc2⟩ := hok
            rw [hc] at hc2
            exact nomatch hc2
          | signalling => exact hok
      · intro j k sidj sidk phj phk hj hk hjk
        try dsimp only at hj hk
        rcases eq_or_ne j i with hji | hnej
        · rw [hji, Function.update_same] at hj
          injection hj with h1 h2
          subst h1
          rcases eq_or_ne k i with hki | hnek
          · exact absurd (hji.trans hki.symm) hjk
          · rw [Function.update_noteq hnek] at hk
            have := hInv.owner_lt k sidk phk hk
            omega
        · rcases eq_or_ne k i with hki | hnek
          · rw [hki, Function.update_same] at hk
            injection hk with h1 h2
            subst h1
            rw [Function.update_noteq hnej] at hj
            have := hInv.owner_lt j sidj phj hj
            omega
          · rw [Function.update_noteq hnej] at hj
            rw [Function.update_noteq hnek] at hk
            exact hInv.owner_uniq j k sidj sidk phj phk hj hk hjk
      · intro sid2 h
        try dsimp only at h ⊢
        injection h with h1
        subst h1
        left
        simp only [slotAt]
        try dsimp only
        rw [getD_append_len]
  | owner sid ph =>
    cases ph with
    | fetching =>
      obtain ⟨hslot, hcur⟩ := hInv.owner_ok i sid .fetching ht
      have he : fetchStep p c i =
          { c with
            fetchCount := c.fetchCount + 1
            threads := Function.update c.threads i (.owner sid .saving) } := by
        unfold fetchStep
        rw [ht]
      rw [he]
      refine ⟨hInv.current_lt, hInv.current_unset, hInv.pending_current,
        owner_lt_of_advance hInv ht rfl rfl, ?_,
        owner_uniq_of_advance hInv ht rfl,
        resolving_of_advance hInv ht (fun h => nomatch h) rfl rfl rfl⟩
      intro j sid2 ph2 hj
      dsimp only at hj
      rcases eq_or_ne j i with hji | hne
      · rw [hji, Function.update_same] at hj
        injection hj with h1 h2
        subst h1
        subst h2
        exact ⟨hslot, hcur⟩
      · rw [Function.update_noteq hne] at hj
        exact hInv.owner_ok j sid2 ph2 hj
    | saving =>
      obtain ⟨hslot, hcur⟩ := hInv.owner_ok i sid .saving ht
      have he : fetchStep p c i =
          { c with
            disk := if p.save then some p.v else c.disk
            threads := Function.update c.threads i (.owner sid .storing) } := by
        unfold fetchStep
        rw [ht]
      rw [he]
      refine ⟨hInv.current_lt, hInv.current_unset, hInv.pending_current,
        owner_lt_of_advance hInv ht rfl rfl, ?_,
        owner_uniq_of_advance hInv ht rfl,
        resolving_of_advance hInv ht (fun h => nomatch h) rfl rfl rfl⟩
      intro j sid2 ph2 hj
      dsimp only at hj
      rcases eq_or_ne j i with hji | hne
      · rw [hji, Function.update_same] at hj
        injection hj with h1 h2
        subst h1
        subst h2
        exact ⟨hslot, hcur⟩
      · rw [Function.update_noteq hne] at hj
        exact hInv.owner_ok j sid2 ph2 hj
    | storing =>
      obtain ⟨hslot, hcur⟩ := hInv.owner_ok i sid .storing ht
      have hslot' : c.slots.getD sid ⟨none, false⟩ = ⟨none, false⟩ := hslot
      have hlt : sid < c.slots.length := hInv.owner_lt i sid .storing ht
      have he : fetchStep p c i =
          { c with
            slots := c.slots.set sid ⟨some p.v, false⟩
            threads := Function.update c.threads i (.owner sid .removing) } := by
        unfold fetchStep
        rw [ht]
        dsimp only
        rw [hslot']
      rw [he]
      refine ⟨?_, ?_, ?_, owner_lt_of_advance hInv ht rfl (by simp), ?_,
        owner_uniq_of_advance hInv ht rfl, ?_⟩
      · intro sid2 h
        try dsimp only at h ⊢
        rw [List.length_set]
        exact hInv.current_lt sid2 h
      · intro sid2 h
        try dsimp only at h ⊢
        have h2 : sid = sid2 := by
          rw [hcur] at h
          exact Option.some.inj h
        subst h2
        simp only [slotAt]
        try dsimp only
        rw [getD_set_self _ _ _ _ hlt]
      · intro sid2 hlen2 hval
        try dsimp only at hlen2 ⊢
        simp only [slotAt] at hval
        try dsimp only at hval
        rw [List.length_set] at hlen2
        rcases eq_or_ne sid2 sid with rfl | hne2
        · rw [getD_set_self _ _ _ _ hlt] at hval
          simp at hval
        · rw [getD_set_ne _ _ _ _ _ (Ne.symm hne2)] at hval
          have hthis := hInv.pending_current sid2 hlen2 hval
          rw [hcur] at hthis
          exact absurd (Option.some.inj hthis) (Ne.symm hne2)
      · intro j sid2 ph2 hj
        try dsimp only at hj
        rcases eq_or_ne j i with hji | hne
        · rw [hji, Function.update_same] at hj
          injection hj with h1 h2
          subst h1
          subst h2
          refine ⟨?_, hcur⟩
          simp only [slotAt]
          try dsimp only
          rw [getD_set_self _ _ _ _ hlt]
        · rw [Function.update_noteq hne] at hj
          have hok := hInv.owner_ok j sid2 ph2 hj
          have hsne : sid2 ≠ sid := hInv.owner_uniq j i sid2 sid ph2 .storing hj ht hne
          have hsa : slotAt
              { c with
                slots := c.slots.set sid ⟨some p.v, false⟩
                threads := Function.update c.threads i (.owner sid .removing) } sid2 =
              slotAt c sid2 := by
            simp only [slotAt]
            try dsimp only
            rw [getD_set_ne _ _ _ _ _ (Ne.symm hsne)]
          rw [hsa]
          exact hok
      · intro sid2 h
        try dsimp only at h ⊢
        rw [hcur] at h
        injection h with h1
        subst h1
        exact Or.inr ⟨i, by rw [Function.update_same]⟩
    | removing =>
      obtain ⟨hslot, hcur⟩ := hInv.owner_ok i sid .removing ht
      have he : fetchStep p c i =
          { c with
            current := none
            threads := Function.update c.threads i (.owner sid .signalling) } := by
        unfold fetchStep
        rw [ht]
      rw [he]
      refine ⟨?_, ?_, ?_, owner_lt_of_advance hInv ht rfl rfl, ?_,
        owner_uniq_of_advance hInv ht rfl, ?_⟩
      · intro sid2 h
        try dsimp only at h
        exact nomatch h
      · intro sid2 h
        try dsimp only at h
        exact nomatch h
      · intro sid2 hlen2 hval
        try dsimp only at hlen2 ⊢
        simp only [slotAt] at hval
        try dsimp only at hval
        have hpc := hInv.pending_current sid2 hlen2 hval
        rw [hcur] at hpc
        have h1 : sid = sid2 := Option.some.inj hpc
        subst h1
        rw [show c.slots.getD sid ⟨none, false⟩ = (⟨some p.v, false⟩ : Slot) from hslot] at hval
        exact nomatch hval
      · intro j sid2 ph2 hj
        try dsimp only at hj
        rcases eq_or_ne j i with hji | hne
        · rw [hji, Function.update_same] at hj
          injection hj with h1 h2
          subst h1
          subst h2
          exact hslot
        · rw [Function.update_noteq hne] at hj
          have hok := hInv.owner_ok j sid2 ph2 hj
          have hsne : sid2 ≠ sid := hInv.owner_uniq j i sid2 sid ph2 .removing hj ht hne
          cases ph2 with
          | fetching =>
            obtain ⟨hs2, hc2⟩ := hok
            rw [hcur] at hc2
            exact absurd (Option.some.inj hc2) (Ne.symm hsne)
          | saving =>
            obtain ⟨hs2, hc2⟩ := hok
            rw [hcur] at hc2
            exact absurd (Option.some.inj hc2) (Ne.symm hsne)
          | storing =>
            obtain ⟨hs2, hc2⟩ := hok
            rw [hcur] at hc2
            exact absurd (Option.some.inj hc2) (Ne.symm hsne)
          | removing =>
            obtain ⟨hs2, hc2⟩ := hok
            rw [hcur] at hc2
            exact absurd (Option.some.inj hc2) (Ne.symm hsne)
          | signalling => exact hok
      · intro sid2 h
        try dsimp only at h
        exact nomatch h
    | signalling =>
      have hslot := hInv.owner_ok i sid .signalling ht
      have hslot' : c.slots.getD sid ⟨none, false⟩ = ⟨some p.v, false⟩ := hslot
      have hlt : sid < c.slots.length := hInv.owner_lt i sid .signalling ht
      have hncur : c.current ≠ some sid := by
        intro hcs
        rcases hInv.current_resolving sid hcs with hv | ⟨j, hj⟩
        · rw [show slotAt c sid = (⟨some p.v, false⟩ : Slot) from hslot] at hv
          exact nomatch hv
        · rcases eq_or_ne j i with hji | hne
          · rw [hji, ht] at hj
            injection hj with h1 h2
            exact nomatch h2
          · exact absurd rfl (hInv.owner_uniq j i sid sid .removing .signalling hj ht hne)
      have he : fetchStep p c i =
          { c with
            slots := c.slots.set sid ⟨some p.v, true⟩
            threads := Function.update c.threads i (.finished (some p.v)) } := by
        unfold fetchStep
        rw [ht]
        dsimp only
        rw [hslot']
      rw [he]
      refine ⟨?_, ?_, ?_, ?_, ?_, ?_, ?_⟩
      · intro sid2 h
        try dsimp only at h ⊢
        rw [List.length_set]
        exact hInv.current_lt sid2 h
      · intro sid2 h
        try dsimp only at h ⊢
        have hne2 : sid2 ≠ sid := fun hh => hncur (hh ▸ h)
        simp only [slotAt]
        try dsimp only
        rw [getD_set_ne _ _ _ _ _ (Ne.symm hne2)]
        exact hInv.current_unset sid2 h
      · intro sid2 hlen2 hval
        try dsimp only at hlen2 ⊢
        simp only [slotAt] at hval
        try dsimp only at hval
        rw [List.length_set] at hlen2
        rcases eq_or_ne sid2 sid with rfl | hne2
        · rw [getD_set_self _ _ _ _ hlt] at hval
          exact nomatch hval
        · rw [getD_set_ne _ _ _ _ _ (Ne.symm hne2)] at hval
          exact hInv.pending_current sid2 hlen2 hval
      · intro j sid2 ph2 hj
        try dsimp only at hj ⊢
        rw [List.length_set]
        rcases eq_or_ne j i with hji | hne
        · rw [hji, Function.update_same] at hj
          exact nomatch hj
        · rw [Function.update_noteq hne] at hj
          exact hInv.owner_lt j sid2 ph2 hj
      · intro j sid2 ph2 hj
        try dsimp only at hj
        rcases eq_or_ne j i with hji | hne
        · rw [hji, Function.update_same] at hj
          exact nomatch hj
        · rw [Function.update_noteq hne] at hj
          have hok := hInv.owner_ok j sid2 ph2 hj
          have hsne : sid2 ≠ sid := hInv.owner_uniq j i sid2 sid ph2 .signalling hj ht hne
          have hsa : slotAt
              { c with
                slots := c.slots.set sid ⟨some p.v, true⟩
                threads := Function.update c.threads i (.finished (some p.v)) } sid2 =
              slotAt c sid2 := by
            simp only [slotAt]
            try dsimp only
            rw [getD_set_ne _ _ _ _ _ (Ne.symm hsne)]
          rw [hsa]
          exact hok
      · intro j k sidj sidk phj phk hj hk hjk
        try dsimp only at hj hk
        rcases eq_or_ne j i with hji | hnej
        · rw [hji, Function.update_same] at hj
          exact nomatch hj
        · rcases eq_or_ne k i with hki | hnek
          · rw [hki, Function.update_same] at hk
            exact nomatch hk
          · rw [Function.update_noteq hnej] at hj
            rw [Function.update_noteq hnek] at hk
            exact hInv.owner_uniq j k sidj sidk phj phk hj hk hjk
      · intro sid2 h
        try dsimp only at h ⊢
        have hne2 : sid2 ≠ sid := fun hh => hncur (hh ▸ h)
        rcases hInv.current_resolving sid2 h with hv | ⟨j, hj⟩
        · left
          simp only [slotAt]
          try dsimp only
          rw [getD_set_ne _ _ _ _ _ (Ne.symm hne2)]
          exact hv
        · right
          refine ⟨j, ?_⟩
          have hne : j ≠ i := by
            intro hji
            rw [hji, ht] at hj
            injection hj with h1 h2
            exact nomatch h2
          rw [Function.update_noteq hne]
          exact hj
  | waiter sid =>
    cases hw : (c.slots.getD sid ⟨none, false⟩).isSet with
    | true =>
      have he : fetchStep p c i =
          { c with
            threads :=
              Function.update c.threads i
                (.finished ((c.slots.getD sid ⟨none, false⟩).value)) } := by
        unfold fetchStep
        rw [ht]
        dsimp only
        rw [hw]
        simp
      rw [he]
      exact inv_update_nonowner hInv i _ (fun _ _ h => nomatch h)
        (fun sid' ph h => by rw [ht] at h; exact nomatch h)
    | false =>
      have he : fetchStep p c i = c := by
        unfold fetchStep
        rw [ht]
        dsimp only
        rw [hw]
        simp
      rw [he]
      exact hInv
  | finished r =>
    have he : fetchStep p c i = c := by
      unfold fetchStep
      rw [ht]
    rw [he]
    exact hInv
  | failedNoLocal =>
    have he : fetchStep p c i = c := by
      unfold fetchStep
      rw [ht]
    rw [he]
    exact hInv
  | failedMissing =>
    have he : fetchStep p c i = c := by
      unfold fetchStep
      rw [ht]
    rw [he]
    exact hInv

/-- The invariant is preserved by whole schedules. -/
theorem inv_run {n : ℕ} {p : FetchParams} {c : Cfg n} (hInv : FetchInv p c)
    (sched : List (Fin n)) : FetchInv p (fetchRun p c sched) := by
  induction sched generalizing c with
  | nil => exact hInv
  | cons i rest ih => exact ih (inv_step hInv i)

/-- C2: in every configuration reachable from the cold start under any
schedule, (i) the `TaskAwaiter` map never holds a signalled slot —
`set_value` runs `del_key` before `set()`, so the map never contains a
fulfilled slot; (ii) a signalled slot has its outcome stored and its key
already removed — `set_value` stores `self.value` first and signals last;
(iii) at most one pending slot (outcome not yet stored) exists for the key
at any time. -/
theorem C2_slot_lifecycle (n : ℕ) (p : FetchParams) (sched : List (Fin n)) :
    (∀ sid, (fetchRun p (fetchInit n) sched).current = some sid →
      (slotAt (fetchRun p (fetchInit n) sched) sid).isSet = false) ∧
    (∀ sid, sid < (fetchRun p (fetchInit n) sched).slots.length →
      (slotAt (fetchRun p (fetchInit n) sched) sid).isSet = true →
      (slotAt (fetchRun p (fetchInit n) sched) sid).value ≠ none ∧
        (fetchRun p (fetchInit n) sched).current ≠ some sid) ∧
    (∀ sid1 sid2, sid1 < (fetchRun p (fetchInit n) sched).slots.length →
      sid2 < (fetchRun p (fetchInit n) sched).slots.length →
      (slotAt (fetchRun p (fetchInit n) sched) sid1).value = none →
      (slotAt (fetchRun p (fetchInit n) sched) sid2).value = none → sid1 = sid2) := by
  have hInv := inv_run (inv_init n p) sched
  refine ⟨hInv.current_unset, ?_, ?_⟩
  · intro sid hlt hset
    constructor
    · intro hval
      have hcur := hInv.pending_current sid hlt hval
      have hthis := hInv.current_unset sid hcur
      rw [hset] at hthis
      exact nomatch hthis
    · intro hcur
      have hthis := hInv.current_unset sid hcur
      rw [hset] at hthis
      exact nomatch hthis
  · intro sid1 sid2 h1 h2 hv1 hv2
    have e1 := hInv.pending_current sid1 h1 hv1
    have e2 := hInv.pending_current sid2 h2 hv2
    rw [e1] at e2
    exact Option.some.inj e2

/-- C2 witness: after worker 0 of two has acquired the slot
(schedule `[0, 0]`), the mapped slot is unsignalled; after worker 0 has run
to completion (schedule of seven steps), the slot is signalled with its
outcome stored and its key removed. -/
theorem C2_slot_lifecycle_witness :
    (slotAt (fetchRun coldParams (fetchInit 2) [0, 0]) 0).isSet = false ∧
    ((slotAt (fetchRun coldParams (fetchInit 2) [0, 0, 0, 0, 0, 0, 0]) 0).value ≠ none ∧
      (fetchRun coldParams (fetchInit 2) [0, 0, 0, 0, 0, 0, 0]).current ≠ some 0) := by
  refine ⟨(C2_slot_lifecycle 2 coldParams [0, 0]).1 0 (by decide), ?_⟩
  exact (C2_slot_lifecycle 2 coldParams [0, 0, 0, 0, 0, 0, 0]).2.1 0 (by decide) (by decide)

/-- The disk state once the owner's save action has run. -/
def diskAfterSave (p : FetchParams) : Option ℕ :=
  if p.save then some p.v else none

/-- The shared state of the coalesced scenario while the single owner of
slot `0` is at each phase: exactly one slot exists, the map holds it until
`del_key` runs, the disk is written at the save action, and exactly one
fetch has run once the fetch action has run. -/
def OwnerStage {n : ℕ} (p : FetchParams) (c : Cfg n) : OwnerPhase → Prop
  | .fetching => c.slots = [⟨none, false⟩] ∧ c.current = some 0 ∧ c.disk = none ∧
      c.fetchCount = 0
  | .saving => c.slots = [⟨none, false⟩] ∧ c.current = some 0 ∧ c.disk = none ∧
      c.fetchCount = 1
  | .storing => c.slots = [⟨none, false⟩] ∧ c.current = some 0 ∧ c.disk = diskAfterSave p ∧
      c.fetchCount = 1
  | .removing => c.slots = [⟨some p.v, false⟩] ∧ c.current = some 0 ∧
      c.disk = diskAfterSave p ∧ c.fetchCount = 1
  | .signalling => c.slots = [⟨some p.v, false⟩] ∧ c.current = none ∧
      c.disk = diskAfterSave p ∧ c.fetchCount = 1

instance {n : ℕ} (p : FetchParams) (c : Cfg n) (ph : OwnerPhase) :
    Decidable (OwnerStage p c ph) := by
  cases ph <;> simp only [OwnerStage] <;> infer_instance

/-- The "simultaneous" configurations of the amended claim C1: every worker
has called `get_condition` before the owner's `set_value` ran, so one
worker owns slot `0` and all others wait on that same slot — or the owner
has already finished, the slot is signalled with the fetched image, and
every other worker is waiting or has finished with that same image. -/
def Coalesced {n : ℕ} (p : FetchParams) (c : Cfg n) : Prop :=
  (∃ (j : Fin n) (ph : OwnerPhase), c.threads j = .owner 0 ph ∧ OwnerStage p c ph ∧
    ∀ i : Fin n, i ≠ j → c.threads i = .waiter 0) ∨
  (c.slots = [⟨some p.v, true⟩] ∧ c.current = none ∧ c.disk = diskAfterSave p ∧
    c.fetchCount = 1 ∧
    ∀ i : Fin n, c.threads i = .waiter 0 ∨ c.threads i = .finished (some p.v))

instance : Fintype OwnerPhase where
  elems :=
    ⟨[OwnerPhase.fetching, OwnerPhase.saving, OwnerPhase.storing, OwnerPhase.removing,
        OwnerPhase.signalling], by decide⟩
  complete := fun x => by cases x <;> decide

instance {n : ℕ} (p : FetchParams) (c : Cfg n) : Decidable (Coalesced p c) := by
  unfold Coalesced
  infer_instance

/-- Every atomic action preserves the coalesced shape: only the single
owner makes progress, waiters stay blocked until the event is set, and
woken waiters read the one published image. -/
theorem coalesced_step {n : ℕ} {p : FetchParams} {c : Cfg n} (hC : Coalesced p c)
    (i : Fin n) : Coalesced p (fetchStep p c i) := by
  rcases hC with ⟨j, ph, hj, hstage, hwait⟩ | ⟨hs, hc, hd, hf, hth⟩
  · rcases eq_or_ne i j with rfl | hne
    · cases ph with
      | fetching =>
        obtain ⟨hs, hc, hd, hf⟩ := hstage
        have he : fetchStep p c i =
            { c with
              fetchCount := c.fetchCount + 1
              threads := Function.update c.threads i (.owner 0 .saving) } := by
          unfold fetchStep
          rw [hj]
        rw [he]
        left
        refine ⟨i, .saving, by dsimp only; rw [Function.update_same], ⟨hs, hc, hd, by rw [hf]⟩, ?_⟩
        intro k hk
        dsimp only
        rw [Function.update_noteq hk]
        exact hwait k hk
      | saving =>
        obtain ⟨hs, hc, hd, hf⟩ := hstage
        have he : fetchStep p c i =
            { c with
              disk := if p.save then some p.v else c.disk
              threads := Function.update c.threads i (.owner 0 .storing) } := by
          unfold fetchStep
          rw [hj]
        rw [he]
        left
        refine ⟨i, .storing, by dsimp only; rw [Function.update_same],
          ⟨hs, hc, by rw [hd]; rfl, hf⟩, ?_⟩
        intro k hk
        dsimp only
        rw [Function.update_noteq hk]
        exact hwait k hk
      | storing =>
        obtain ⟨hs, hc, hd, hf⟩ := hstage
        have he : fetchStep p c i =
            { c with
              slots := [⟨some p.v, false⟩]
              threads := Function.update c.threads i (.owner 0 .removing) } := by
          unfold fetchStep
          rw [hj]
          dsimp only
          rw [hs]
          rfl
        rw [he]
        left
        refine ⟨i, .removing, by dsimp only; rw [Function.update_same], ⟨rfl, hc, hd, hf⟩, ?_⟩
        intro k hk
        dsimp only
        rw [Function.update_noteq hk]
        exact hwait k hk
      | removing =>
        obtain ⟨hs, hc, hd, hf⟩ := hstage
        have he : fetchStep p c i =
            { c with
              current := none
              threads := Function.update c.threads i (.owner 0 .signalling) } := by
          unfold fetchStep
          rw [hj]
        rw [he]
        left
        refine ⟨i, .signalling, by dsimp only; rw [Function.update_same], ⟨hs, rfl, hd, hf⟩, ?_⟩
        intro k hk
        dsimp only
        rw [Function.update_noteq hk]
        exact hwait k hk
      | signalling =>
        obtain ⟨hs, hc, hd, hf⟩ := hstage
        have he : fetchStep p c i =
            { c with
              slots := [⟨some p.v, true⟩]
              threads := Function.update c.threads i (.finished (some p.v)) } := by
          unfold fetchStep
          rw [hj]
          dsimp only
          rw [hs]
          rfl
        rw [he]
        right
        refine ⟨rfl, hc, hd, hf, ?_⟩
        intro k
        rcases eq_or_ne k i with rfl | hk
        · right
          dsimp only
          rw [Function.update_same]
        · left
          dsimp only
          rw [Function.update_noteq hk]
          exact hwait k hk
    · have hwi : c.threads i = .waiter 0 := hwait i hne
      have hset : (c.slots.getD 0 ⟨none, false⟩).isSet = false := by
        cases ph with
        | fetching => rw [hstage.1]; rfl
        | saving => rw [hstage.1]; rfl
        | storing => rw [hstage.1]; rfl
        | removing => rw [hstage.1]; rfl
        | signalling => rw [hstage.1]; rfl
      have he : fetchStep p c i = c := by
        unfold fetchStep
        rw [hwi]
        dsimp only
        rw [hset]
        simp
      rw [he]
      exact Or.inl ⟨j, ph, hj, hstage, hwait⟩
  · rcases hth i with hw | hfin
    · have he : fetchStep p c i =
          { c with
            threads :=
              Function.update c.threads i
                (.finished ((c.slots.getD 0 ⟨none, false⟩).value)) } := by
        unfold fetchStep
        rw [hw]
        dsimp only
        rw [show (c.slots.getD 0 ⟨none, false⟩).isSet = true from by rw [hs]; rfl]
        simp
      rw [he]
      right
      refine ⟨hs, hc, hd, hf, ?_⟩
      intro k
      rcases eq_or_ne k i with rfl | hk
      · right
        dsimp only
        rw [Function.update_same, hs]
        rfl
      · rcases hth k with hkw | hkf
        · left
          dsimp only
          rw [Function.update_noteq hk]
          exact hkw
        · right
          dsimp only
          rw [Function.update_noteq hk]
          exact hkf
    · have he : fetchStep p c i = c := by
        unfold fetchStep
        rw [hfin]
      rw [he]
      exact Or.inr ⟨hs, hc, hd, hf, hth⟩

/-- The coalesced shape is preserved by whole schedules. -/
theorem coalesced_run {n : ℕ} {p : FetchParams} {c : Cfg n} (hC : Coalesced p c)
    (sched : List (Fin n)) : Coalesced p (fetchRun p c sched) := by
  induction sched generalizing c with
  | nil => exact hC
  | cons i rest ih => exact ih (coalesced_step hC i)

/-- C1 amended: from any coalesced configuration — all N workers have
passed `get_condition` before the winning worker's `set_value`, so one
owns the slot and the other N-1 wait on that same slot — every
continuation schedule keeps the shape, and whenever all N workers have
completed, exactly one upstream fetch was executed and every worker
completed with the same fetched image.  (Without the coalescing proviso
the claim fails: see the counterexample, where a worker that misses both
the removed slot and the in-flight disk write fetches a second time.) -/
theorem C1_single_flight (n : ℕ) (p : FetchParams) (c : Cfg n) (sched : List (Fin n))
    (hsim : Coalesced p c)
    (hdone : ∀ i : Fin n, ((fetchRun p c sched).threads i).isFinished = true) :
    (fetchRun p c sched).fetchCount = 1 ∧
    ∀ i : Fin n, (fetchRun p c sched).threads i = .finished (some p.v) := by
  rcases coalesced_run hsim sched with ⟨j, ph, hj, _, _⟩ | ⟨_, _, _, hf, hth⟩
  · have hdj := hdone j
    rw [hj] at hdj
    simp [TPhase.isFinished] at hdj
  · refine ⟨hf, fun i => ?_⟩
    rcases hth i with hw | hfin
    · have hdi := hdone i
      rw [hw] at hdi
      simp [TPhase.isFinished] at hdi
    · exact hfin

/-- C1 witness: with two workers, the schedule `[0, 1, 0, 1]` from the cold
start reaches a coalesced configuration (worker 0 owns the slot, worker 1
waits on it); completing it with `[0, 0, 0, 0, 0, 1]` finishes both
workers with the fetched image after exactly one fetch. -/
theorem C1_single_flight_witness :
    Coalesced coldParams (fetchRun coldParams (fetchInit 2) [0, 1, 0, 1]) ∧
    (fetchRun coldParams (fetchRun coldParams (fetchInit 2) [0, 1, 0, 1])
        [0, 0, 0, 0, 0, 1]).fetchCount = 1 ∧
    ∀ i : Fin 2, (fetchRun coldParams (fetchRun coldParams (fetchInit 2) [0, 1, 0, 1])
        [0, 0, 0, 0, 0, 1]).threads i = .finished (some 7) := by
  have h1 : Coalesced coldParams (fetchRun coldParams (fetchInit 2) [0, 1, 0, 1]) := by
    decide
  have h2 := C1_single_flight 2 coldParams (fetchRun coldParams (fetchInit 2) [0, 1, 0, 1])
    [0, 0, 0, 0, 0, 1] h1 (by decide)
  exact ⟨h1, h2.1, h2.2⟩
